import Mathlib

/-!
Verification of the portfolio-analytics core of `app.py` (Athena dashboard).

The computational core is embedded shallowly:
* prices and returns are rational numbers (`ℚ`), dates are naturals (`ℕ`);
* pandas/numpy NaN propagation is embedded as `Option` (a `none` result is
  the "undefined / NaN" value);
* the external price provider (OpenBB / yfinance) is a parameter
  `fetch : String → Option (List Bar)`, where `none` models a failed request
  and `some []` an empty history.
-/

namespace Athena

/-- One row of a price history: a trading date and a closing price. -/
structure Bar where
  date : ℕ
  close : ℚ
deriving DecidableEq, Repr

/-- One row of the uploaded portfolio (`ticker, quantity, cost_basis`). -/
structure Position where
  ticker : String
  quantity : ℚ
  cost_basis : ℚ
deriving DecidableEq, Repr

/-! ### Return series (pandas `pct_change`) -/

/-- Tail of `pct_change`: consecutive relative changes, given the previous value. -/
def pctChangeFrom (prev : ℚ) : List ℚ → List ℚ
  | [] => []
  | x :: xs => (x - prev) / prev :: pctChangeFrom x xs

/-- `Series.pct_change().fillna(0)` : the first (undefined) observation becomes `0`.
Used at `app.py:195` (equity curve), `app.py:346` (backtest `ret`) and in
`ann_metrics` (`app.py:356`). -/
def pctChangeFill0 : List ℚ → List ℚ
  | [] => []
  | _ :: [] => [0]
  | x :: y :: xs => 0 :: pctChangeFrom x (y :: xs)

/-- `Series.pct_change()` followed by `dropna()` : the first (undefined)
observation is removed.  This is what the Risco & Fatores page does at
`app.py:317-319`. -/
def pctChangeDropna : List ℚ → List ℚ
  | [] => []
  | x :: xs => pctChangeFrom x xs

theorem pctChangeFrom_length (prev : ℚ) (l : List ℚ) :
    (pctChangeFrom prev l).length = l.length := by
  induction l generalizing prev with
  | nil => rfl
  | cons x xs ih => simp [pctChangeFrom, ih]

theorem pctChangeFill0_length (l : List ℚ) :
    (pctChangeFill0 l).length = l.length := by
  match l with
  | [] => rfl
  | [x] => rfl
  | x :: y :: xs => simp [pctChangeFill0, pctChangeFrom, pctChangeFrom_length]

theorem pctChangeFill0_head (l : List ℚ) (h : l ≠ []) :
    (pctChangeFill0 l).head? = some 0 := by
  match l with
  | [] => exact absurd rfl h
  | [x] => rfl
  | x :: y :: xs => rfl

/-! ### Risk page: aligned asset/benchmark returns (`app.py:316-319`)

`pd.merge(hist, bench, on="date")` is an inner join on dates; then both close
columns get `pct_change()` and the joint `dropna()` removes exactly the first
row (the only one where either return is NaN). -/

/-- `pd.merge(hist[["date","Close"]], bench[["date","Close"]], on="date")`:
rows `(date, Close_asset, Close_bench)` for dates present in both histories,
in the order of the left history. -/
def mergeOnDate (a b : List Bar) : List (ℕ × ℚ × ℚ) :=
  a.filterMap fun x => (b.find? fun y => y.date == x.date).map fun y => (x.date, x.close, y.close)

/-- Tail of the joint `pct_change` on the two close columns of the merged frame. -/
def pairPctFrom (prev : ℕ × ℚ × ℚ) : List (ℕ × ℚ × ℚ) → List (ℚ × ℚ)
  | [] => []
  | q :: rs =>
    ((q.2.1 - prev.2.1) / prev.2.1, (q.2.2 - prev.2.2) / prev.2.2) :: pairPctFrom q rs

/-- The `(r_a, r_b)` rows that survive `df.dropna()` on the Risco & Fatores
page: percentage changes of both merged close columns, with the first (NaN)
row dropped. -/
def riskReturnPairs (a b : List Bar) : List (ℚ × ℚ) :=
  match mergeOnDate a b with
  | [] => []
  | r :: rs => pairPctFrom r rs

/-! ### Beta / alpha (`app.py:320-324`)

`beta = float(np.cov(y, x.T)[0, 1] / np.var(x)) if np.var(x) > 0 else np.nan`.
`np.cov` defaults to `ddof=1` (sample covariance, divide by `n-1`) while
`np.var` defaults to `ddof=0` (population variance, divide by `n`). -/

/-- Arithmetic mean (`np.mean` / `Series.mean`); `0` on the empty list, where
numpy would produce NaN (never exercised by the claims). -/
def mean (l : List ℚ) : ℚ := l.sum / l.length

/-- `np.cov(y, x)[0,1]` with the default `ddof=1`: sample covariance. -/
def npCovSample (y x : List ℚ) : ℚ :=
  ((y.zip x).map fun p => (p.1 - mean y) * (p.2 - mean x)).sum / ((x.length : ℚ) - 1)

/-- `np.var(x)` with the default `ddof=0`: population covariance of `x` with
itself. -/
def npVarPop (x : List ℚ) : ℚ :=
  (x.map fun v => (v - mean x) ^ 2).sum / (x.length : ℚ)

/-- The beta actually computed at `app.py:323` (NaN, i.e. `none`, when the
benchmark variance is not positive). -/
def betaCode (y x : List ℚ) : Option ℚ :=
  if npVarPop x > 0 then some (npCovSample y x / npVarPop x) else none

/-- The alpha of `app.py:324`, given the beta value used there. -/
def alphaCode (y x : List ℚ) (beta : ℚ) : ℚ := mean y - beta * mean x

/-- Population covariance, the `ddof`-consistent companion of `npVarPop`. -/
def covPop (y x : List ℚ) : ℚ :=
  ((y.zip x).map fun p => (p.1 - mean y) * (p.2 - mean x)).sum / (x.length : ℚ)

/-- The ordinary-least-squares beta the spec describes:
`covariance / variance` with one common normalisation (here population, the
ratio is the same with sample normalisation on both sides). -/
def betaOLS (y x : List ℚ) : Option ℚ :=
  if npVarPop x > 0 then some (covPop y x / npVarPop x) else none

/-! ### Backtest engine (`app.py:342-348`)

```
df["SMAf"]   = df["Close"].rolling(sma_fast).mean()
df["SMAs"]   = df["Close"].rolling(sma_slow).mean()
df["signal"] = (df["SMAf"] > df["SMAs"]).astype(int)
df["ret"]    = df["Close"].pct_change().fillna(0)
df["strat"]  = df["signal"].shift(1).fillna(0) * df["ret"]
```
A rolling mean is NaN (`none`) until the window is full; pandas `NaN > x`
and `x > NaN` are `False`, so `astype(int)` yields `0` there. -/

/-- `Series.rolling(w).mean()` as a list of optional values: entry `t` is the
mean of entries `t - w + 1 .. t` of `closes`, `none` while fewer than `w`
observations exist. -/
def rollingMean (w : ℕ) (closes : List ℚ) : List (Option ℚ) :=
  (List.range closes.length).map fun t =>
    if w ≤ t + 1 then some (((closes.drop (t + 1 - w)).take w).sum / (w : ℚ)) else none

/-- `(df["SMAf"] > df["SMAs"]).astype(int)`: `1` where both rolling means are
defined and the fast one is strictly greater, else `0` (a comparison with NaN
is `False`). -/
def signalList (f s : ℕ) (closes : List ℚ) : List ℚ :=
  List.zipWith
    (fun a b =>
      match a, b with
      | some x, some y => if x > y then 1 else 0
      | _, _ => 0)
    (rollingMean f closes) (rollingMean s closes)

/-- `Series.shift(1).fillna(0)`: prepend a `0`, drop the last entry. -/
def shift1Fill0 (l : List ℚ) : List ℚ := (0 :: l).take l.length

/-- `df["ret"]` of the backtest page. -/
def retList (closes : List ℚ) : List ℚ := pctChangeFill0 closes

/-- `df["strat"] = df["signal"].shift(1).fillna(0) * df["ret"]`. -/
def stratList (f s : ℕ) (closes : List ℚ) : List ℚ :=
  List.zipWith (· * ·) (shift1Fill0 (signalList f s closes)) (retList closes)

/-! ### Valuation engine (`app.py:158-196`) -/

/-- One row of the valuation summary built at `app.py:179`. -/
structure SummaryRow where
  ticker : String
  quantity : ℚ
  last_price : ℚ
  market_value : ℚ
  cost_basis : ℚ
  unrealized_pnl : ℚ
deriving DecidableEq, Repr

/-- The `hist is None or hist.empty` test of `app.py:172/187`: a fetch that
failed (`none`) or returned an empty frame (`some []`) yields no usable
history. -/
def fetchOk (fetch : String → Option (List Bar)) (t : String) : Option (List Bar) :=
  match fetch t with
  | none => none
  | some [] => none
  | some bars => some bars

/-- The summary row built for one position (`app.py:170-179`):
`price = hist.iloc[-1]["Close"]`, `mktval = qty * price`,
`pnl = (price - cb) * qty`; `none` when the position is skipped. -/
def mkRow (fetch : String → Option (List Bar)) (p : Position) : Option SummaryRow :=
  (fetchOk fetch p.ticker).map fun bars =>
    let price := (bars.getLastD ⟨0, 0⟩).close
    { ticker := p.ticker
      quantity := p.quantity
      last_price := price
      market_value := p.quantity * price
      cost_basis := p.cost_basis
      unrealized_pnl := (price - p.cost_basis) * p.quantity }

/-- The `rows` list of `app.py:169-180`: one summary row per position whose
history fetch succeeded, in input order. -/
def summaryRows (fetch : String → Option (List Bar)) (positions : List Position) :
    List SummaryRow :=
  positions.filterMap (mkRow fetch)

/-- The concatenated `all_hist` records of `app.py:184-193`, reduced to the
columns the aggregation uses: `(date, mv)` with `mv = Close * qty`. -/
def mvRecords (fetch : String → Option (List Bar)) (positions : List Position) :
    List (ℕ × ℚ) :=
  positions.flatMap fun p =>
    match fetchOk fetch p.ticker with
    | none => []
    | some bars => bars.map fun b => (b.date, b.close * p.quantity)

/-- `eq.groupby("date")["mv"].sum().reset_index()` (`app.py:194`): one row per
distinct date, keys sorted ascending, value the sum of all `mv` entries at
that date. -/
def groupbySum (recs : List (ℕ × ℚ)) : List (ℕ × ℚ) :=
  (((recs.map Prod.fst).dedup).insertionSort (· ≤ ·)).map fun d =>
    (d, ((recs.filter fun r => r.fst = d).map Prod.snd).sum)

/-- One row of the final equity-curve frame of `app.py:194-195`. -/
structure EquityPoint where
  date : ℕ
  portfolio_value : ℚ
  returns : ℚ
deriving DecidableEq, Repr

/-- The equity-curve frame: grouped per-date portfolio values plus the
`pct_change().fillna(0.0)` returns column (`app.py:195`). -/
def equityCurve (fetch : String → Option (List Bar)) (positions : List Position) :
    List EquityPoint :=
  let g := groupbySum (mvRecords fetch positions)
  List.zipWith (fun dv r => ⟨dv.1, dv.2, r⟩) g (pctChangeFill0 (g.map Prod.snd))

/-- `build_portfolio_valuation` (`app.py:168-196`): the summary and, when the
summary is non-empty, the equity curve. -/
def build_portfolio_valuation (fetch : String → Option (List Bar))
    (positions : List Position) : List SummaryRow × List EquityPoint :=
  let summary := summaryRows fetch positions
  if summary.isEmpty then (summary, []) else (summary, equityCurve fetch positions)

/-! ### Annualized metrics (`app.py:283-290` and `ann_metrics`, `app.py:355-360`)

```
ann_ret = (1 + r.mean()) ** 252 - 1
ann_vol = r.std() * np.sqrt(252)
sharpe  = (ann_ret - 0.03) / ann_vol if ann_vol > 0 else np.nan
```
`Series.std()` defaults to `ddof=1` and is NaN on fewer than two
observations; `NaN > 0` is `False`, so a NaN volatility also routes the
sharpe to NaN. -/

/-- `(1 + r.mean()) ** 252 - 1`. -/
def annRet (r : List ℚ) : ℚ := (1 + mean r) ^ 252 - 1

/-- `Series.var()` (`ddof=1`): `none` (NaN) on fewer than two observations. -/
def sampleVar (r : List ℚ) : Option ℚ :=
  if 2 ≤ r.length then
    some ((r.map fun x => (x - mean r) ^ 2).sum / ((r.length : ℚ) - 1))
  else none

/-- `r.std() * np.sqrt(252)`, NaN (`none`) when the standard deviation is. -/
noncomputable def annVol (r : List ℚ) : Option ℝ :=
  (sampleVar r).map fun v => Real.sqrt (v : ℝ) * Real.sqrt 252

/-- `(ann_ret - 0.03) / ann_vol if ann_vol > 0 else np.nan`. -/
noncomputable def sharpe (r : List ℚ) : Option ℝ :=
  match annVol r with
  | some v => if v > 0 then some (((annRet r : ℝ) - 3 / 100) / v) else none
  | none => none

/-- `ann_metrics` (`app.py:355-360`) applied to an equity series: converts the
series to returns by `pct_change().fillna(0)` before the three formulas. -/
def annMetricsReturns (series : List ℚ) : List ℚ := pctChangeFill0 series

/-! ### Historical VaR (`app.py:328`): `np.percentile(df["r_a"], 5)`

`np.percentile` with the default linear interpolation: on the sorted sample
`a_0 ≤ … ≤ a_(n-1)`, the rank is `pos = q/100 * (n-1)`; with `i = ⌊pos⌋` and
`g = pos - i` the result is `a_i + g * (a_(i+1) - a_i)` (and `a_(n-1)` when
`i = n - 1`).  Undefined (`none`) on an empty sample. -/

/-- `np.percentile(xs, q)` (linear interpolation, the numpy default). -/
def npPercentile (xs : List ℚ) (q : ℚ) : Option ℚ :=
  match xs.length with
  | 0 => none
  | Nat.succ m =>
    let l := xs.insertionSort (· ≤ ·)
    let pos := q * m / 100
    let i := (⌊pos⌋).toNat
    let g := pos - i
    some (l.getD i 0 + g * (l.getD (i + 1) (l.getD i 0) - l.getD i 0))

/-- The VaR of `app.py:328`: the 5th percentile of the aligned asset returns. -/
def var95 (rets : List ℚ) : Option ℚ := npPercentile rets 5

/-- The spec's contract `historicalVaR(returns, confidence)`: the empirical
percentile at `(1 - confidence) * 100` (the page hard-codes
`confidence = 0.95`, i.e. the 5th percentile). -/
def historicalVaR (rets : List ℚ) (confidence : ℚ) : Option ℚ :=
  npPercentile rets ((1 - confidence) * 100)

/-! ### Python string primitives

Python strings are modelled as lists of characters; `str.upper` and
`str.lower` are embedded as the ASCII case maps (ticker symbols and CSV
headers are ASCII) and `str.strip` as removal of leading and trailing
whitespace. -/

/-- Python `str.upper`, ASCII fragment: map `a-z` to `A-Z`. -/
def pyUpperChar (c : Char) : Char :=
  if h : 97 ≤ c.toNat ∧ c.toNat ≤ 122 then
    ⟨⟨c.toNat - 32, by omega⟩, by
      have : c.toNat - 32 < 55296 := by omega
      exact Or.inl this⟩
  else c

/-- Python `str.lower`, ASCII fragment: map `A-Z` to `a-z`. -/
def pyLowerChar (c : Char) : Char :=
  if h : 65 ≤ c.toNat ∧ c.toNat ≤ 90 then
    ⟨⟨c.toNat + 32, by omega⟩, by
      have : c.toNat + 32 < 55296 := by omega
      exact Or.inl this⟩
  else c

/-- Python `str.upper` on a whole string. -/
def pyUpper (s : List Char) : List Char := s.map pyUpperChar

/-- Python `str.lower` on a whole string. -/
def pyLower (s : List Char) : List Char := s.map pyLowerChar

/-- Python `str.strip`: drop leading and trailing whitespace. -/
def pyStrip (s : List Char) : List Char :=
  ((s.dropWhile Char.isWhitespace).reverse.dropWhile Char.isWhitespace).reverse

/-- `ticker.upper().strip()`, the normalization both fetchers apply first
(`app.py:52`, `app.py:78`); also `df["ticker"].str.upper().str.strip()`
at `app.py:164`. -/
def normTicker (s : List Char) : List Char := pyStrip (pyUpper s)

/-! ### CSV parsing (`portfolio_from_csv`, `app.py:158-165`)

The frame produced by `read_csv` is modelled as a list of named columns of
cell strings (numeric conversion by `read_csv` is irrelevant to the claims
about headers and tickers). -/

/-- The required column names asserted at `app.py:163`. -/
def requiredCols : List (List Char) :=
  ["ticker".toList, "quantity".toList, "cost_basis".toList]

/-- `df.columns = [c.strip().lower() for c in df.columns]` (`app.py:162`). -/
def normalizeHeaders (df : List (List Char × List (List Char))) :
    List (List Char × List (List Char)) :=
  df.map fun c => (pyLower (pyStrip c.1), c.2)

/-- First column of the given (normalized) name, as `df[name]` selects it. -/
def colValues (df : List (List Char × List (List Char))) (name : List Char) :
    List (List Char) :=
  ((df.find? fun c => c.1 == name).map Prod.snd).getD []

/-- `portfolio_from_csv` (`app.py:159-165`): normalizes the headers, asserts
the three required columns (a failed `assert` raises before any valuation
runs, modelled as `Except.error` with the assertion message), upper-cases and
strips the tickers, and keeps the three columns in fixed order. -/
def portfolio_from_csv (df : List (List Char × List (List Char))) :
    Except String (List (List Char × List (List Char))) :=
  let d := normalizeHeaders df
  if requiredCols.all (fun r => d.any fun c => c.1 == r) then
    Except.ok
      [("ticker".toList, (colValues d "ticker".toList).map normTicker),
       ("quantity".toList, colValues d "quantity".toList),
       ("cost_basis".toList, colValues d "cost_basis".toList)]
  else
    Except.error "CSV deve conter as colunas: ticker, quantity, cost_basis"

/-! ### Ticker normalization in the fetchers (`app.py:52` and `app.py:78`)

Both `get_price_history` and `get_quote` begin with
`ticker = ticker.upper().strip()` and only then consult the provider chain. -/

/-- `get_price_history` (`app.py:50-74`): normalize the ticker, then run the
provider chain (OpenBB, old OpenBB, yfinance — external, abstracted as one
function of the normalized ticker). -/
def get_price_history (provider : List Char → Option (List Bar)) (ticker : List Char) :
    Option (List Bar) :=
  provider (normTicker ticker)

/-- `get_quote` (`app.py:77-97`): normalize the ticker, then run the quote
provider chain (external, abstracted). -/
def get_quote (provider : List Char → List (String × ℚ)) (ticker : List Char) :
    List (String × ℚ) :=
  provider (normTicker ticker)

/-! ## Theorems -/

/-! ### C1 -/

/-- Auxiliary evaluation: `pairPctFrom` produces one row per remaining merged
row. -/
theorem pairPctFrom_length (p : ℕ × ℚ × ℚ) (l : List (ℕ × ℚ × ℚ)) :
    (pairPctFrom p l).length = l.length := by
  induction l generalizing p with
  | nil => rfl
  | cons q rs ih => simp [pairPctFrom, ih]

/-- C1: the Risco & Fatores beta is NOT `covariance / variance`.  On the
aligned return series where asset returns are exactly `2 ×` the benchmark
returns — benchmark `[1%, 2%, 3%]`, asset `[2%, 4%, 6%]` — the code
(`app.py:323`) produces `beta = 3`, because `np.cov` defaults to `ddof=1`
(sample covariance) while `np.var` defaults to `ddof=0` (population
variance), inflating the ratio by `n/(n-1)`.  The consistently normalised
OLS beta of the same input is `2`, as the spec (and the code's own
`# OLS beta` comment) require; the alpha computed from the inflated beta is
`-1/50`, not `0`.  The degenerate-benchmark clause does hold: a zero-variance
benchmark yields NaN (`none`). -/
theorem C1_beta_ddof_mismatch :
    betaCode [2/100, 4/100, 6/100] [1/100, 2/100, 3/100] = some 3 ∧
    betaOLS [2/100, 4/100, 6/100] [1/100, 2/100, 3/100] = some 2 ∧
    (3 : ℚ) ≠ 2 ∧
    alphaCode [2/100, 4/100, 6/100] [1/100, 2/100, 3/100] 3 = -(1/50) ∧
    betaCode [1/100, 2/100, 3/100] [5/100, 5/100, 5/100] = none := by
  refine ⟨?_, ?_, by norm_num, ?_, ?_⟩ <;>
    norm_num [betaCode, betaOLS, npVarPop, npCovSample, covPop, alphaCode, mean, List.zip,
      List.zipWith]

/-! ### C2 -/

/-- C2 counterexample: the asset return series used for beta and VaR does not
start with a `0` return.  With asset history `[(0,100), (1,110)]` and
benchmark history `[(0,50), (1,55)]`, the `r_a` column that survives
`dropna()` (`app.py:317-319`) is `[1/10]`: the first observation has been
dropped and the series starts with the day-2 return `1/10 ≠ 0`. -/
theorem C2_risk_series_first_not_zero :
    ((riskReturnPairs [⟨0, 100⟩, ⟨1, 110⟩] [⟨0, 50⟩, ⟨1, 55⟩]).map Prod.fst).head? =
      some (1/10) ∧ ((1 : ℚ)/10) ≠ 0 := by
  constructor
  · norm_num [riskReturnPairs, mergeOnDate, pairPctFrom, List.filterMap, List.find?]
  · norm_num

/-- `pctChangeFill0` of a non-empty list starts with `0`. -/
theorem pctChangeFill0_cons (x : ℚ) (xs : List ℚ) :
    ∃ l, pctChangeFill0 (x :: xs) = 0 :: l := by
  cases xs <;> exact ⟨_, rfl⟩

theorem rollingMean_length (w : ℕ) (closes : List ℚ) :
    (rollingMean w closes).length = closes.length := by
  simp [rollingMean]

theorem signalList_length (f s : ℕ) (closes : List ℚ) :
    (signalList f s closes).length = closes.length := by
  simp [signalList, rollingMean_length]

/-- C2, amended: the equity-curve returns (`app.py:195`) and the backtest
`ret` and `strat` series (`app.py:346-347`) do start with an exact `0`
(`fillna(0)`), but the asset/benchmark return series used for beta and VaR
(`app.py:317-319`) instead drop the undefined first observation: the series
has one row fewer than the merged history and starts with the second date's
return. -/
theorem C2_first_return_zero :
    (∀ fetch ps e, (equityCurve fetch ps).head? = some e → e.returns = 0) ∧
    (∀ closes : List ℚ, closes ≠ [] → (retList closes).head? = some 0) ∧
    (∀ f s closes, closes ≠ [] → (stratList f s closes).head? = some 0) ∧
    (∀ a b r rs, mergeOnDate a b = r :: rs → (riskReturnPairs a b).length = rs.length) := by
  refine ⟨?_, ?_, ?_, ?_⟩
  · intro fetch ps e he
    simp only [equityCurve] at he
    cases hg : groupbySum (mvRecords fetch ps) with
    | nil => rw [hg] at he; simp at he
    | cons x xs =>
      rw [hg] at he
      obtain ⟨l, hl⟩ := pctChangeFill0_cons x.2 (xs.map Prod.snd)
      simp only [List.map_cons, hl, List.zipWith_cons_cons, List.head?_cons,
        Option.some_inj] at he
      rw [← he]
  · intro closes h
    exact pctChangeFill0_head closes h
  · intro f s closes h
    obtain ⟨c, cs, rfl⟩ := List.exists_cons_of_ne_nil h
    have hsig : signalList f s (c :: cs) ≠ [] := by
      have := signalList_length f s (c :: cs)
      intro hnil; rw [hnil] at this; simp at this
    obtain ⟨a, as, ha⟩ := List.exists_cons_of_ne_nil hsig
    obtain ⟨l, hl⟩ := pctChangeFill0_cons c cs
    simp only [stratList, retList, hl, ha, shift1Fill0, List.length_cons,
      List.take_succ_cons, List.zipWith_cons_cons, List.head?_cons, mul_zero]
  · intro a b r rs h
    simp [riskReturnPairs, h, pairPctFrom_length]

/-- Concrete instantiation of `C2_first_return_zero`: a one-position
portfolio with history `[(0,100), (1,110)]`, backtest closes `[100, 110]`,
and the risk pair of histories `[(0,100); (1,110)]` vs `[(0,50); (1,55)]`. -/
theorem C2_first_return_zero_witness :
    (⟨0, 100, 0⟩ : EquityPoint).returns = 0 ∧
    (retList [100, 110]).head? = some 0 ∧
    (stratList 2 3 [100, 110]).head? = some 0 ∧
    (riskReturnPairs [⟨0, 100⟩, ⟨1, 110⟩] [⟨0, 50⟩, ⟨1, 55⟩]).length = 1 := by
  refine ⟨?_, ?_, ?_, ?_⟩
  · exact C2_first_return_zero.1 (fun _ => some [⟨0, 100⟩, ⟨1, 110⟩]) [⟨"A", 1, 1⟩] ⟨0, 100, 0⟩
      (by norm_num [equityCurve, groupbySum, mvRecords, fetchOk, List.insertionSort,
        List.orderedInsert, List.dedup, List.pwFilter, List.filter, pctChangeFill0,
        pctChangeFrom])
  · exact C2_first_return_zero.2.1 [100, 110] (by simp)
  · exact C2_first_return_zero.2.2.1 2 3 [100, 110] (by simp)
  · exact (C2_first_return_zero.2.2.2 [⟨0, 100⟩, ⟨1, 110⟩] [⟨0, 50⟩, ⟨1, 55⟩]
      (0, 100, 50) [(1, 110, 55)] rfl).trans rfl

/-! ### C3 -/

/-- A summary row is produced exactly when the history fetch succeeded with a
non-empty frame. -/
theorem mkRow_eq_none (fetch : String → Option (List Bar)) (p : Position) :
    mkRow fetch p = none ↔ fetchOk fetch p.ticker = none := by
  simp [mkRow]

/-- Positions whose fetch failed or returned empty can be removed from the
input without changing the summary. -/
theorem summaryRows_filter (fetch : String → Option (List Bar)) (ps : List Position) :
    summaryRows fetch (ps.filter fun p => (fetchOk fetch p.ticker).isSome) =
      summaryRows fetch ps := by
  simp only [summaryRows]
  induction ps with
  | nil => rfl
  | cons p ps ih =>
    by_cases hp : (fetchOk fetch p.ticker).isSome
    · rw [List.filter_cons_of_pos (by simpa using hp)]
      cases hm : mkRow fetch p <;> simp [List.filterMap_cons, hm, ih]
    · rw [List.filter_cons_of_neg (by simpa using hp)]
      have hm : mkRow fetch p = none :=
        (mkRow_eq_none fetch p).mpr (Option.not_isSome_iff_eq_none.mp hp)
      simp [List.filterMap_cons, hm, ih]

/-- Positions whose fetch failed or returned empty contribute no market-value
records to the equity-curve aggregation. -/
theorem mvRecords_filter (fetch : String → Option (List Bar)) (ps : List Position) :
    mvRecords fetch (ps.filter fun p => (fetchOk fetch p.ticker).isSome) =
      mvRecords fetch ps := by
  simp only [mvRecords]
  induction ps with
  | nil => rfl
  | cons p ps ih =>
    by_cases hp : (fetchOk fetch p.ticker).isSome
    · rw [List.filter_cons_of_pos (by simpa using hp)]
      simp [List.flatMap_cons, ih]
    · rw [List.filter_cons_of_neg (by simpa using hp)]
      have h0 : fetchOk fetch p.ticker = none := Option.not_isSome_iff_eq_none.mp hp
      simp [List.flatMap_cons, h0, ih]

/-- C3: `build_portfolio_valuation` degrades by exclusion.  Removing every
position whose price-history fetch failed or returned empty from the input
changes nothing — such positions appear in neither the summary nor the
equity curve — and when every position's fetch fails the result is the pair
of empty frames; being a total function, the embedded computation raises no
exception. -/
theorem C3_skip_failed :
    (∀ fetch ps,
      build_portfolio_valuation fetch (ps.filter fun p => (fetchOk fetch p.ticker).isSome) =
        build_portfolio_valuation fetch ps) ∧
    (∀ fetch ps, (∀ p ∈ ps, fetchOk fetch p.ticker = none) →
      build_portfolio_valuation fetch ps = ([], [])) := by
  constructor
  · intro fetch ps
    simp only [build_portfolio_valuation, summaryRows_filter, equityCurve,
      mvRecords_filter]
  · intro fetch ps h
    have hs : summaryRows fetch ps = [] := by
      simp only [summaryRows, List.filterMap_eq_nil_iff]
      intro p hp
      exact (mkRow_eq_none fetch p).mpr (h p hp)
    simp [build_portfolio_valuation, hs]

/-- Concrete instantiation of `C3_skip_failed`: a provider that fails on
every ticker values a two-position portfolio to the empty summary and empty
curve. -/
theorem C3_skip_failed_witness :
    build_portfolio_valuation (fun _ => none) [⟨"AAPL", 1, 10⟩, ⟨"MSFT", 2, 20⟩] = ([], []) :=
  C3_skip_failed.2 (fun _ => none) [⟨"AAPL", 1, 10⟩, ⟨"MSFT", 2, 20⟩]
    (by intro p _; rfl)

/-! ### C8 -/

/-- A successful `fetchOk` never returns an empty history. -/
theorem fetchOk_ne_nil {fetch : String → Option (List Bar)} {t : String}
    {bars : List Bar} (h : fetchOk fetch t = some bars) : bars ≠ [] := by
  unfold fetchOk at h
  cases hf : fetch t with
  | none => rw [hf] at h; exact absurd h (by simp)
  | some l =>
    cases l with
    | nil => rw [hf] at h; exact absurd h (by simp)
    | cons b bs => rw [hf] at h; simp at h; simp [← h]

/-- `getLastD` with a dummy default is the genuine last element. -/
theorem getLastD_eq_getLast {bars : List Bar} (hne : bars ≠ []) (d : Bar) :
    bars.getLastD d = bars.getLast hne := by
  rw [List.getLastD_eq_getLast?, List.getLast?_eq_getLast_of_ne_nil hne]
  rfl

/-- In a history whose dates are sorted ascending, the last bar carries the
most recent date. -/
theorem date_le_getLast : ∀ (bars : List Bar) (hne : bars ≠ []),
    (bars.map Bar.date).Sorted (· ≤ ·) →
    ∀ b ∈ bars, b.date ≤ (bars.getLast hne).date
  | [x], _, _, b, hb => by
    simp at hb
    simp [hb]
  | x :: y :: ys, _, hsort, b, hb => by
    rw [List.getLast_cons (List.cons_ne_nil y ys)]
    have hsort' : List.Sorted (· ≤ ·) (x.date :: (y :: ys).map Bar.date) := hsort
    have hs := List.sorted_cons.mp hsort'
    rcases List.mem_cons.mp hb with rfl | hbxs
    · have hall : ∀ c ∈ y :: ys, b.date ≤ c.date := fun c hc => by
        simpa using hs.1 c.date (List.mem_map_of_mem Bar.date hc)
      exact hall _ (List.getLast_mem _)
    · exact date_le_getLast (y :: ys) (List.cons_ne_nil y ys) hs.2 b hbxs

/-- C8: properties of the valuation summary (`app.py:169-180`).
The summary tickers are the input tickers, in input order, minus the skipped
positions; every row satisfies `market_value = quantity * last_price` and
`unrealized_pnl = (last_price - cost_basis) * quantity` exactly; and for
every position with a usable history the produced row prices the position at
the close of the last fetched bar, which carries the most recent date
whenever the history is date-sorted (the provider contract). -/
theorem C8_summary_rows :
    ∀ (fetch : String → Option (List Bar)) (ps : List Position),
      ((summaryRows fetch ps).map SummaryRow.ticker =
        (ps.filter fun p => (fetchOk fetch p.ticker).isSome).map Position.ticker) ∧
      (∀ row ∈ summaryRows fetch ps,
        row.market_value = row.quantity * row.last_price ∧
        row.unrealized_pnl = (row.last_price - row.cost_basis) * row.quantity) ∧
      (∀ p ∈ ps, ∀ bars, fetchOk fetch p.ticker = some bars →
        ∃ hne : bars ≠ [],
          mkRow fetch p = some
            { ticker := p.ticker
              quantity := p.quantity
              last_price := (bars.getLast hne).close
              market_value := p.quantity * (bars.getLast hne).close
              cost_basis := p.cost_basis
              unrealized_pnl := ((bars.getLast hne).close - p.cost_basis) * p.quantity } ∧
          ((bars.map Bar.date).Sorted (· ≤ ·) →
            ∀ b ∈ bars, b.date ≤ (bars.getLast hne).date)) := by
  intro fetch ps
  refine ⟨?_, ?_, ?_⟩
  · induction ps with
    | nil => rfl
    | cons p ps ih =>
      by_cases hp : (fetchOk fetch p.ticker).isSome
      · obtain ⟨bars, hb⟩ := Option.isSome_iff_exists.mp hp
        rw [List.filter_cons_of_pos (by simpa using hp)]
        simp only [summaryRows, List.filterMap_cons, mkRow, hb, Option.map_some,
          List.map_cons]
        exact congrArg _ ih
      · have h0 : fetchOk fetch p.ticker = none := Option.not_isSome_iff_eq_none.mp hp
        rw [List.filter_cons_of_neg (by simpa using hp)]
        simpa only [summaryRows, List.filterMap_cons, mkRow, h0, Option.map_none] using ih
  · intro row hrow
    simp only [summaryRows, List.mem_filterMap] at hrow
    obtain ⟨p, _, hp⟩ := hrow
    simp only [mkRow, Option.map_eq_some'] at hp
    obtain ⟨bars, _, hrow⟩ := hp
    constructor <;> simp [← hrow]
  · intro p _ bars hb
    have hne := fetchOk_ne_nil hb
    refine ⟨hne, ?_, fun hsort => date_le_getLast bars hne hsort⟩
    have hlast : bars.getLastD ⟨0, 0⟩ = bars.getLast hne := getLastD_eq_getLast hne _
    simp only [mkRow, hb, Option.map_some', hlast]

/-- Concrete instantiation of `C8_summary_rows`: one position, history
`[(0, 10), (1, 12)]`, so the row prices at close `12` of date `1`. -/
theorem C8_summary_rows_witness :
    ((summaryRows (fun _ => some [⟨0, 10⟩, ⟨1, 12⟩]) [⟨"AAPL", 3, 5⟩]).map SummaryRow.ticker =
      (([⟨"AAPL", 3, 5⟩] : List Position).filter
        fun p => (fetchOk (fun _ => some [⟨0, 10⟩, ⟨1, 12⟩]) p.ticker).isSome).map
          Position.ticker) ∧
    (∀ row ∈ summaryRows (fun _ => some [⟨0, 10⟩, ⟨1, 12⟩]) [⟨"AAPL", 3, 5⟩],
      row.market_value = row.quantity * row.last_price ∧
      row.unrealized_pnl = (row.last_price - row.cost_basis) * row.quantity) ∧
    (∀ b ∈ ([⟨0, 10⟩, ⟨1, 12⟩] : List Bar),
      b.date ≤ (([⟨0, 10⟩, ⟨1, 12⟩] : List Bar).getLast (by simp)).date) := by
  have h := C8_summary_rows (fun _ => some [⟨0, 10⟩, ⟨1, 12⟩]) [⟨"AAPL", 3, 5⟩]
  refine ⟨h.1, h.2.1, ?_⟩
  obtain ⟨hne, _, hlast⟩ := h.2.2 ⟨"AAPL", 3, 5⟩ (by simp) [⟨0, 10⟩, ⟨1, 12⟩] rfl
  exact hlast (by simp [List.Sorted])

/-! ### C4 -/

/-- The spec's description of one position's contribution to the portfolio
value at a date: `quantity × close` of that position's bar at the date, `0`
when the position was skipped or has no bar at the date. -/
def priceContrib (fetch : String → Option (List Bar)) (p : Position) (d : ℕ) : ℚ :=
  match fetchOk fetch p.ticker with
  | none => 0
  | some bars =>
    match bars.find? fun b => b.date == d with
    | some b => b.close * p.quantity
    | none => 0

/-- One position's summed market value at a date, as the `groupby` aggregation
accumulates it (summing every bar at the date). -/
def filterContrib (fetch : String → Option (List Bar)) (p : Position) (d : ℕ) : ℚ :=
  match fetchOk fetch p.ticker with
  | none => 0
  | some bars => ((bars.filter fun b => b.date = d).map fun b => b.close * p.quantity).sum

/-- The sorted, deduplicated date keys of `groupby("date")`. -/
theorem groupbySum_map_fst (recs : List (ℕ × ℚ)) :
    (groupbySum recs).map Prod.fst = ((recs.map Prod.fst).dedup).insertionSort (· ≤ ·) := by
  simp only [groupbySum, List.map_map]
  exact List.map_id _

/-- The `groupby("date")` keys are strictly increasing. -/
theorem groupbySum_sorted (recs : List (ℕ × ℚ)) :
    ((groupbySum recs).map Prod.fst).Sorted (· < ·) := by
  rw [groupbySum_map_fst]
  refine List.Sorted.lt_of_le (List.sorted_insertionSort _ _) ?_
  exact (List.perm_insertionSort (· ≤ ·) ((recs.map Prod.fst).dedup)).nodup_iff.mpr
    (recs.map Prod.fst).nodup_dedup

/-- Each `groupby("date")` row carries the sum of the `mv` entries at its
date. -/
theorem groupbySum_mem {recs : List (ℕ × ℚ)} {d : ℕ} {v : ℚ}
    (h : (d, v) ∈ groupbySum recs) :
    v = ((recs.filter fun r => r.fst = d).map Prod.snd).sum := by
  simp only [groupbySum, List.mem_map] at h
  obtain ⟨a, _, heq⟩ := h
  injection heq with h1 h2
  subst h1
  exact h2.symm

/-- Summing the concatenated per-position records at one date equals summing
each position's contribution at that date. -/
theorem mvRecords_filter_sum (fetch : String → Option (List Bar)) (ps : List Position)
    (d : ℕ) :
    (((mvRecords fetch ps).filter fun r => r.fst = d).map Prod.snd).sum =
      (ps.map fun p => filterContrib fetch p d).sum := by
  induction ps with
  | nil => rfl
  | cons p ps ih =>
    simp only [mvRecords, List.flatMap_cons, List.filter_append, List.map_append,
      List.sum_append, List.map_cons, List.sum_cons] at ih ⊢
    rw [ih]
    congr 1
    cases hb : fetchOk fetch p.ticker with
    | none => simp [filterContrib, hb]
    | some bars =>
      simp only [filterContrib, hb, List.filter_map, List.map_map]
      congr 1

/-- With duplicate-free dates in a history, the summed contribution is the
single matching bar's `close × quantity` (or `0`). -/
theorem filterContrib_eq_priceContrib (fetch : String → Option (List Bar))
    (p : Position) (d : ℕ)
    (hnodup : ∀ bars, fetchOk fetch p.ticker = some bars → (bars.map Bar.date).Nodup) :
    filterContrib fetch p d = priceContrib fetch p d := by
  cases hb : fetchOk fetch p.ticker with
  | none => simp [filterContrib, priceContrib, hb]
  | some bars =>
    simp only [filterContrib, priceContrib, hb]
    have hnd := hnodup bars hb
    clear hb hnodup
    induction bars with
    | nil => rfl
    | cons b bs ih =>
      simp only [List.map_cons, List.nodup_cons] at hnd
      by_cases hbd : b.date = d
      · have hfind : (b :: bs).find? (fun x => x.date == d) = some b := by
          simp [List.find?_cons, hbd]
        have hnil : bs.filter (fun x => x.date = d) = [] := by
          rw [List.filter_eq_nil_iff]
          intro c hc hcd
          apply hnd.1
          have hcd' : c.date = d := by simpa using hcd
          rw [hbd, ← hcd']
          exact List.mem_map_of_mem Bar.date hc
        rw [hfind, List.filter_cons_of_pos (by simpa using hbd), hnil]
        simp
      · have hfind : (b :: bs).find? (fun x => x.date == d) = bs.find? (fun x => x.date == d) := by
          simp [List.find?_cons, hbd]
        rw [hfind, List.filter_cons_of_neg (by simpa using hbd)]
        exact ih hnd.2

/-- The dates of the assembled equity-curve rows are the grouped keys. -/
theorem zipWith_mk_map_date : ∀ (g : List (ℕ × ℚ)) (rs : List ℚ), g.length = rs.length →
    (List.zipWith (fun dv r => EquityPoint.mk dv.1 dv.2 r) g rs).map EquityPoint.date =
      g.map Prod.fst
  | [], _, _ => rfl
  | _ :: _, [], h => by simp at h
  | x :: xs, r :: rs, h => by
    simp only [List.zipWith_cons_cons, List.map_cons]
    exact congrArg _ (zipWith_mk_map_date xs rs (by simpa using h))

/-- Every assembled equity-curve row comes from a grouped `(date, value)`
pair. -/
theorem mem_zipWith_mk : ∀ (g : List (ℕ × ℚ)) (rs : List ℚ) (e : EquityPoint),
    e ∈ List.zipWith (fun dv r => EquityPoint.mk dv.1 dv.2 r) g rs →
    (e.date, e.portfolio_value) ∈ g
  | [], _, _, h => by simp at h
  | _ :: _, [], _, h => by simp at h
  | x :: xs, r :: rs, e, h => by
    rcases List.mem_cons.mp (by simpa using h) with rfl | htail
    · exact List.mem_cons_self x xs
    · exact List.mem_cons_of_mem x (mem_zipWith_mk xs rs e htail)

/-- C4: the equity curve of `build_portfolio_valuation` (`app.py:183-195`).
Its dates are strictly increasing (hence sorted ascending with no
duplicates), and — provided each fetched history has duplicate-free dates —
each row's `portfolio_value` is the sum over all non-skipped positions of
`quantity × close` at that row's date, a position lacking a bar at the date
contributing nothing. -/
theorem C4_equity_curve :
    ∀ (fetch : String → Option (List Bar)) (ps : List Position),
      ((equityCurve fetch ps).map EquityPoint.date).Sorted (· < ·) ∧
      ((∀ t bars, fetchOk fetch t = some bars → (bars.map Bar.date).Nodup) →
        ∀ e ∈ equityCurve fetch ps,
          e.portfolio_value = (ps.map fun p => priceContrib fetch p e.date).sum) := by
  intro fetch ps
  constructor
  · have hlen : (groupbySum (mvRecords fetch ps)).length =
        (pctChangeFill0 ((groupbySum (mvRecords fetch ps)).map Prod.snd)).length := by
      rw [pctChangeFill0_length, List.length_map]
    rw [equityCurve, zipWith_mk_map_date _ _ hlen]
    exact groupbySum_sorted _
  · intro hnodup e he
    have hmem : (e.date, e.portfolio_value) ∈ groupbySum (mvRecords fetch ps) :=
      mem_zipWith_mk _ _ e he
    rw [groupbySum_mem hmem, mvRecords_filter_sum]
    exact congrArg List.sum (List.map_congr_left fun p _ =>
      filterContrib_eq_priceContrib fetch p e.date fun bars hb => hnodup _ bars hb)

/-- Concrete instantiation of `C4_equity_curve`: two positions with
overlapping date ranges (histories `[(0,10), (1,11)]` and `[(1,20), (2,21)]`,
quantities `2` and `3`). -/
theorem C4_equity_curve_witness :
    ((equityCurve
        (fun t => if t = "A" then some [⟨0, 10⟩, ⟨1, 11⟩] else some [⟨1, 20⟩, ⟨2, 21⟩])
        [⟨"A", 2, 0⟩, ⟨"B", 3, 0⟩]).map EquityPoint.date).Sorted (· < ·) ∧
    (∀ e ∈ equityCurve
        (fun t => if t = "A" then some [⟨0, 10⟩, ⟨1, 11⟩] else some [⟨1, 20⟩, ⟨2, 21⟩])
        [⟨"A", 2, 0⟩, ⟨"B", 3, 0⟩],
      e.portfolio_value =
        (([⟨"A", 2, 0⟩, ⟨"B", 3, 0⟩] : List Position).map fun p =>
          priceContrib
            (fun t => if t = "A" then some [⟨0, 10⟩, ⟨1, 11⟩] else some [⟨1, 20⟩, ⟨2, 21⟩])
            p e.date).sum) := by
  have h := C4_equity_curve
    (fun t => if t = "A" then some [⟨0, 10⟩, ⟨1, 11⟩] else some [⟨1, 20⟩, ⟨2, 21⟩])
    [⟨"A", 2, 0⟩, ⟨"B", 3, 0⟩]
  refine ⟨h.1, h.2 ?_⟩
  intro t bars hb
  by_cases ht : t = "A" <;> simp [fetchOk, ht] at hb <;> simp [← hb]

/-! ### C5 -/

/-- Percentage changes along a constant series are all `0`. -/
theorem pctChangeFrom_replicate (c : ℚ) : ∀ m,
    pctChangeFrom c (List.replicate m c) = List.replicate m 0
  | 0 => rfl
  | m + 1 => by
    simp only [List.replicate_succ, pctChangeFrom, sub_self, zero_div,
      pctChangeFrom_replicate c m]

/-- `pct_change().fillna(0)` of a constant series is the all-zero series. -/
theorem pctChangeFill0_replicate (c : ℚ) (n : ℕ) :
    pctChangeFill0 (List.replicate n c) = List.replicate n 0 := by
  match n with
  | 0 => rfl
  | 1 => rfl
  | m + 2 =>
    show pctChangeFill0 (c :: c :: List.replicate m c) = _
    simp only [pctChangeFill0, List.replicate_succ]
    rw [show (c :: List.replicate m c) = List.replicate (m + 1) c from rfl,
      pctChangeFrom_replicate]
    rfl

/-- C5: the annualized metrics (`app.py:283-290`, `app.py:355-360`).
`annRet` is exactly `(1 + mean) ^ 252 - 1`; the sample variance is never
negative; the annualized volatility is `std * sqrt 252` (so its square is
`variance * 252`); a strictly positive volatility yields
`sharpe = (annRet - 0.03) / annVol`; a zero volatility yields NaN (`none`),
not a division error; and a constant price series (over two or more days)
produces zero volatility and an undefined sharpe. -/
theorem C5_annualized_metrics :
    (∀ r : List ℚ, annRet r = (1 + mean r) ^ 252 - 1) ∧
    (∀ r : List ℚ, ∀ v, sampleVar r = some v → 0 ≤ v) ∧
    (∀ r : List ℚ, ∀ v, sampleVar r = some v →
      annVol r = some (Real.sqrt (v : ℝ) * Real.sqrt 252) ∧
      (Real.sqrt (v : ℝ) * Real.sqrt 252) ^ 2 = (v : ℝ) * 252) ∧
    (∀ r : List ℚ, ∀ w, annVol r = some w → 0 < w →
      sharpe r = some (((annRet r : ℝ) - 3 / 100) / w)) ∧
    (∀ r : List ℚ, annVol r = some 0 → sharpe r = none) ∧
    (∀ (c : ℚ) (n : ℕ), c ≠ 0 → 2 ≤ n →
      annVol (annMetricsReturns (List.replicate n c)) = some 0 ∧
      sharpe (annMetricsReturns (List.replicate n c)) = none) := by
  have hvar_nonneg : ∀ (r : List ℚ) (v : ℚ), sampleVar r = some v → 0 ≤ v := by
    intro r v h
    unfold sampleVar at h
    split_ifs at h with hlen
    · obtain rfl := Option.some_inj.mp h.symm
      apply div_nonneg
      · exact List.sum_nonneg fun x hx => by
          obtain ⟨y, _, rfl⟩ := List.mem_map.mp hx
          exact sq_nonneg _
      · have : (2 : ℚ) ≤ (r.length : ℚ) := by exact_mod_cast hlen
        linarith
  have hconst : ∀ (c : ℚ) (n : ℕ), 2 ≤ n →
      annVol (annMetricsReturns (List.replicate n c)) = some 0 := by
    intro c n hn
    have hz : annMetricsReturns (List.replicate n c) = List.replicate n 0 :=
      pctChangeFill0_replicate c n
    have hvar : sampleVar (List.replicate n 0) = some 0 := by
      have hmean : mean (List.replicate n (0 : ℚ)) = 0 := by
        simp [mean, List.sum_replicate]
      simp [sampleVar, hmean, List.map_replicate, List.sum_replicate,
        List.length_replicate, hn]
    rw [hz]
    simp [annVol, hvar]
  refine ⟨fun r => rfl, hvar_nonneg, ?_, ?_, ?_, ?_⟩
  · intro r v h
    have hnn := hvar_nonneg r v h
    constructor
    · simp [annVol, h]
    · rw [mul_pow, Real.sq_sqrt (by exact_mod_cast hnn), Real.sq_sqrt (by norm_num)]
  · intro r w h hw
    simp [sharpe, h, hw]
  · intro r h
    simp [sharpe, h]
  · intro c n _ hn
    refine ⟨hconst c n hn, ?_⟩
    have h0 := hconst c n hn
    simp [sharpe, h0]

/-- Concrete instantiation of `C5_annualized_metrics`: the return series
`[1/10, 3/10]` has variance `1/50 ≥ 0`, and the constant price series
`[5, 5]` yields zero annualized volatility and an undefined (NaN) sharpe. -/
theorem C5_annualized_metrics_witness :
    (0 : ℚ) ≤ 1/50 ∧
    annVol (annMetricsReturns (List.replicate 2 (5 : ℚ))) = some 0 ∧
    sharpe (annMetricsReturns (List.replicate 2 (5 : ℚ))) = none := by
  refine ⟨?_, (C5_annualized_metrics.2.2.2.2.2 5 2 (by norm_num) (by norm_num)).1,
    (C5_annualized_metrics.2.2.2.2.2 5 2 (by norm_num) (by norm_num)).2⟩
  exact C5_annualized_metrics.2.1 [1/10, 3/10] (1/50)
    (by norm_num [sampleVar, mean])

/-! ### C6 -/

/-- The mean a full rolling window of width `w` computes at index `t`. -/
def windowMean (w : ℕ) (closes : List ℚ) (t : ℕ) : ℚ :=
  ((closes.drop (t + 1 - w)).take w).sum / (w : ℚ)

theorem rollingMean_getD (w : ℕ) (closes : List ℚ) (t : ℕ) (ht : t < closes.length) :
    (rollingMean w closes).getD t none =
      if w ≤ t + 1 then some (windowMean w closes t) else none := by
  rw [List.getD_eq_getElem _ _ (by simpa [rollingMean_length] using ht)]
  simp [rollingMean, windowMean]

theorem signalList_getD (f s : ℕ) (closes : List ℚ) (t : ℕ) (ht : t < closes.length) :
    (signalList f s closes).getD t 0 =
      match (rollingMean f closes).getD t none, (rollingMean s closes).getD t none with
      | some x, some y => if x > y then 1 else 0
      | _, _ => 0 := by
  rw [List.getD_eq_getElem _ _ (by simpa [signalList_length] using ht),
    List.getD_eq_getElem _ _ (by simpa [rollingMean_length] using ht),
    List.getD_eq_getElem _ _ (by simpa [rollingMean_length] using ht)]
  simp [signalList]

theorem shift1Fill0_getD (l : List ℚ) (t : ℕ) (ht : t < l.length) :
    (shift1Fill0 l).getD t 0 = if t = 0 then 0 else l.getD (t - 1) 0 := by
  have hlen : (shift1Fill0 l).length = l.length := by
    simp [shift1Fill0]
  rw [List.getD_eq_getElem _ _ (by simpa [hlen] using ht)]
  cases t with
  | zero =>
    simp [shift1Fill0]
  | succ k =>
    have hk : k < l.length := by omega
    simp only [Nat.add_sub_cancel, if_neg (Nat.succ_ne_zero k)]
    rw [List.getD_eq_getElem _ _ hk]
    simp only [shift1Fill0]
    rw [List.getElem_take]
    simp

theorem stratList_length (f s : ℕ) (closes : List ℚ) :
    (stratList f s closes).length = closes.length := by
  simp [stratList, shift1Fill0, signalList_length, retList, pctChangeFill0_length]

/-- C6: the SMA-crossover backtest (`app.py:342-348`).  At every in-range
index `t`: once both windows are full, the signal is `1` exactly when the
fast SMA strictly exceeds the slow SMA (else `0`); before both windows are
full the signal is `0` (flat, no error); the strategy return at `t ≥ 1` is
the signal observed at `t - 1` times the realized return at `t` (strict
one-period lag); and the strategy return at `t = 0` is `0`. -/
theorem C6_backtest :
    ∀ (f s : ℕ) (closes : List ℚ) (t : ℕ), t < closes.length →
      (f ≤ t + 1 → s ≤ t + 1 →
        (signalList f s closes).getD t 0 =
          if windowMean f closes t > windowMean s closes t then 1 else 0) ∧
      (¬ f ≤ t + 1 ∨ ¬ s ≤ t + 1 → (signalList f s closes).getD t 0 = 0) ∧
      (1 ≤ t → (stratList f s closes).getD t 0 =
        (signalList f s closes).getD (t - 1) 0 * (retList closes).getD t 0) ∧
      (stratList f s closes).getD 0 0 = 0 := by
  intro f s closes t ht
  have hsig := signalList_getD f s closes t ht
  have hstrat : ∀ u, u < closes.length → (stratList f s closes).getD u 0 =
      (shift1Fill0 (signalList f s closes)).getD u 0 * (retList closes).getD u 0 := by
    intro u hu
    rw [List.getD_eq_getElem _ _ (by simpa [stratList_length] using hu)]
    simp only [stratList, List.getElem_zipWith]
    rw [List.getD_eq_getElem _ _
        (by simpa [shift1Fill0, signalList_length] using hu),
      List.getD_eq_getElem _ _ (by simpa [retList, pctChangeFill0_length] using hu)]
  refine ⟨?_, ?_, ?_, ?_⟩
  · intro hf hs
    rw [hsig, rollingMean_getD f closes t ht, rollingMean_getD s closes t ht,
      if_pos hf, if_pos hs]
  · intro hfs
    rw [hsig, rollingMean_getD f closes t ht, rollingMean_getD s closes t ht]
    rcases hfs with hf | hs
    · rw [if_neg hf]
    · rw [if_neg hs]
      cases hc : (if f ≤ t + 1 then some (windowMean f closes t) else none) <;> rfl
  · intro ht1
    rw [hstrat t ht, shift1Fill0_getD _ _ (by simpa [signalList_length] using ht),
      if_neg (by omega)]
  · have h0 : 0 < closes.length := Nat.lt_of_le_of_lt (Nat.zero_le t) ht
    rw [hstrat 0 h0, shift1Fill0_getD _ _ (by simpa [signalList_length] using h0)]
    simp

/-- Concrete instantiation of `C6_backtest`: the spec's own test prices
`[10, 11, 12, 13, 12, 11, 10]` with `fastWindow = 2`, `slowWindow = 3`, at
index `t = 5`. -/
theorem C6_backtest_witness :
    (5 : ℕ) < ([10, 11, 12, 13, 12, 11, 10] : List ℚ).length ∧
    ((2 ≤ 5 + 1 → 3 ≤ 5 + 1 →
      (signalList 2 3 [10, 11, 12, 13, 12, 11, 10]).getD 5 0 =
        if windowMean 2 [10, 11, 12, 13, 12, 11, 10] 5 >
            windowMean 3 [10, 11, 12, 13, 12, 11, 10] 5 then 1 else 0) ∧
     (¬ 2 ≤ 5 + 1 ∨ ¬ 3 ≤ 5 + 1 →
      (signalList 2 3 [10, 11, 12, 13, 12, 11, 10]).getD 5 0 = 0) ∧
     (1 ≤ 5 → (stratList 2 3 [10, 11, 12, 13, 12, 11, 10]).getD 5 0 =
      (signalList 2 3 [10, 11, 12, 13, 12, 11, 10]).getD 4 0 *
        (retList [10, 11, 12, 13, 12, 11, 10]).getD 5 0) ∧
     (stratList 2 3 [10, 11, 12, 13, 12, 11, 10]).getD 0 0 = 0) :=
  ⟨by simp, C6_backtest 2 3 [10, 11, 12, 13, 12, 11, 10] 5 (by simp)⟩

/-! ### C7 -/

/-- C7: the historical VaR (`app.py:327-328`).  At confidence `0.95` it is
the numpy 5th percentile of the return sample (`(1 - 0.95) * 100 = 5`),
defined for every non-empty series; on the spec's sample
`[-0.05, -0.03, -0.01, 0.0, 0.02, 0.04, 0.06]` it evaluates to `-11/250`
(= `-0.044`), the linearly interpolated empirical 5th percentile of that set
(`pos = 0.05 * 6 = 0.3`, `-0.05 + 0.3 * (-0.03 - (-0.05))`). -/
theorem C7_historical_var :
    (∀ (conf : ℚ) (rets : List ℚ),
      historicalVaR rets conf = npPercentile rets ((1 - conf) * 100)) ∧
    (∀ rets : List ℚ, rets ≠ [] →
      historicalVaR rets (95/100) = npPercentile rets 5 ∧
      (npPercentile rets 5).isSome) ∧
    historicalVaR [-5/100, -3/100, -1/100, 0, 2/100, 4/100, 6/100] (95/100) =
      some (-11/250) := by
  refine ⟨fun conf rets => rfl, ?_, ?_⟩
  · intro rets hne
    have h5 : ((1 : ℚ) - 95/100) * 100 = 5 := by norm_num
    constructor
    · rw [historicalVaR, h5]
    · cases rets with
      | nil => exact absurd rfl hne
      | cons a l => simp [npPercentile]
  · have h5 : ((1 : ℚ) - 95/100) * 100 = 5 := by norm_num
    rw [historicalVaR, h5]
    norm_num [npPercentile, List.insertionSort, List.orderedInsert]

/-- Concrete instantiation of `C7_historical_var` on the spec's return
sample. -/
theorem C7_historical_var_witness :
    historicalVaR [-5/100, -3/100, -1/100, 0, 2/100, 4/100, 6/100] (95/100) =
      npPercentile [-5/100, -3/100, -1/100, 0, 2/100, 4/100, 6/100] 5 ∧
    (npPercentile [-5/100, -3/100, -1/100, 0, 2/100, 4/100, 6/100] 5).isSome :=
  C7_historical_var.2.1 [-5/100, -3/100, -1/100, 0, 2/100, 4/100, 6/100] (by simp)

/-! ### C9 -/

/-- C9: `portfolio_from_csv` (`app.py:158-165`).  The parser fails — with the
descriptive assertion message, before any valuation computation can run —
exactly when some required column (`ticker`, `quantity`, `cost_basis`) is
missing from the whitespace-trimmed, lower-cased headers; on success the
ticker column is upper-cased and whitespace-trimmed. -/
theorem C9_csv_parsing :
    ∀ df : List (List Char × List (List Char)),
      ((portfolio_from_csv df =
          Except.error "CSV deve conter as colunas: ticker, quantity, cost_basis") ↔
        ∃ r ∈ requiredCols, ∀ c ∈ df, pyLower (pyStrip c.1) ≠ r) ∧
      (∀ out, portfolio_from_csv df = Except.ok out →
        colValues out "ticker".toList =
          (colValues (normalizeHeaders df) "ticker".toList).map normTicker) := by
  intro df
  by_cases hc : requiredCols.all (fun r => (normalizeHeaders df).any fun c => c.1 == r) = true
  · constructor
    · constructor
      · intro h
        simp only [portfolio_from_csv, hc, if_true] at h
        exact Except.noConfusion h
      · rintro ⟨r, hr, hall⟩
        exfalso
        simp only [List.all_eq_true] at hc
        have hx := hc r hr
        simp only [List.any_eq_true] at hx
        obtain ⟨c, hcmem, hceq⟩ := hx
        simp only [normalizeHeaders, List.mem_map] at hcmem
        obtain ⟨c0, hc0, rfl⟩ := hcmem
        exact hall c0 hc0 (by simpa using hceq)
    · intro out hout
      simp only [portfolio_from_csv, hc, if_true, Except.ok.injEq] at hout
      subst hout
      simp [colValues, List.find?]
  · constructor
    · constructor
      · intro _
        by_contra hno
        push_neg at hno
        apply hc
        simp only [List.all_eq_true]
        intro r hr
        obtain ⟨c0, hc0, hceq⟩ := hno r hr
        simp only [List.any_eq_true]
        exact ⟨(pyLower (pyStrip c0.1), c0.2), List.mem_map_of_mem _ hc0, by simpa using hceq⟩
      · intro _
        simp [portfolio_from_csv, hc]
    · intro out hout
      simp [portfolio_from_csv, hc] at hout

/-- Concrete instantiation of `C9_csv_parsing`: headers
`["Ticker ", "quantity", "cost_basis"]` parse successfully with ticker cell
`"aapl "` normalised, while a frame missing the `ticker` column is rejected
with the assertion message. -/
theorem C9_csv_parsing_witness :
    colValues [("ticker".toList, ["AAPL".toList]), ("quantity".toList, []),
        ("cost_basis".toList, [])] "ticker".toList =
      (colValues
        (normalizeHeaders [("Ticker ".toList, ["aapl ".toList]), ("quantity".toList, []),
          ("cost_basis".toList, [])]) "ticker".toList).map normTicker ∧
    portfolio_from_csv [("quantity".toList, [])] =
      Except.error "CSV deve conter as colunas: ticker, quantity, cost_basis" := by
  constructor
  · have h := (C9_csv_parsing
      [("Ticker ".toList, ["aapl ".toList]), ("quantity".toList, []),
        ("cost_basis".toList, [])]).2
      [("ticker".toList, ["AAPL".toList]), ("quantity".toList, []), ("cost_basis".toList, [])]
      (by rfl)
    exact h
  · exact (C9_csv_parsing [("quantity".toList, [])]).1.mpr (by decide)

/-! ### C10 -/

/-- Characters are determined by their scalar value. -/
theorem char_eq_of_toNat_eq {a b : Char} (h : a.toNat = b.toNat) : a = b :=
  Char.eq_of_val_eq (UInt32.eq_of_toBitVec_eq (BitVec.eq_of_toNat_eq h))

theorem pyUpperChar_toNat (c : Char) :
    (pyUpperChar c).toNat =
      if 97 ≤ c.toNat ∧ c.toNat ≤ 122 then c.toNat - 32 else c.toNat := by
  by_cases h : 97 ≤ c.toNat ∧ c.toNat ≤ 122
  · rw [if_pos h]; unfold pyUpperChar; rw [dif_pos h]; rfl
  · rw [if_neg h]; unfold pyUpperChar; rw [dif_neg h]

theorem pyUpperChar_eq_self {c : Char} (h : ¬ (97 ≤ c.toNat ∧ c.toNat ≤ 122)) :
    pyUpperChar c = c := by
  unfold pyUpperChar; rw [dif_neg h]

/-- ASCII upper-casing is idempotent. -/
theorem pyUpperChar_idem (c : Char) : pyUpperChar (pyUpperChar c) = pyUpperChar c := by
  by_cases h : 97 ≤ c.toNat ∧ c.toNat ≤ 122
  · refine pyUpperChar_eq_self ?_
    rw [pyUpperChar_toNat, if_pos h]
    omega
  · rw [pyUpperChar_eq_self h]
    exact pyUpperChar_eq_self h

theorem isWhitespace_iff (c : Char) :
    c.isWhitespace = true ↔
      c.toNat = 32 ∨ c.toNat = 9 ∨ c.toNat = 13 ∨ c.toNat = 10 := by
  constructor
  · intro h
    simp only [Char.isWhitespace, Bool.or_eq_true, decide_eq_true_eq] at h
    rcases h with ((h | h) | h) | h <;> subst h <;> simp
  · intro h
    simp only [Char.isWhitespace, Bool.or_eq_true, decide_eq_true_eq]
    rcases h with h | h | h | h
    · exact Or.inl (Or.inl (Or.inl (char_eq_of_toNat_eq (h.trans (by decide)))))
    · exact Or.inl (Or.inl (Or.inr (char_eq_of_toNat_eq (h.trans (by decide)))))
    · exact Or.inl (Or.inr (char_eq_of_toNat_eq (h.trans (by decide))))
    · exact Or.inr (char_eq_of_toNat_eq (h.trans (by decide)))

/-- ASCII upper-casing neither creates nor destroys whitespace. -/
theorem isWhitespace_pyUpperChar (c : Char) :
    (pyUpperChar c).isWhitespace = c.isWhitespace := by
  by_cases h : 97 ≤ c.toNat ∧ c.toNat ≤ 122
  · have hup : (pyUpperChar c).toNat = c.toNat - 32 := by
      rw [pyUpperChar_toNat, if_pos h]
    have h1 : (pyUpperChar c).isWhitespace = false := by
      rw [Bool.eq_false_iff]
      intro hw
      have := (isWhitespace_iff _).mp hw
      omega
    have h2 : c.isWhitespace = false := by
      rw [Bool.eq_false_iff]
      intro hw
      have := (isWhitespace_iff _).mp hw
      omega
    rw [h1, h2]
  · rw [pyUpperChar_eq_self h]

/-- `str.upper` is idempotent. -/
theorem pyUpper_idem (s : List Char) : pyUpper (pyUpper s) = pyUpper s := by
  unfold pyUpper
  rw [List.map_map]
  exact List.map_congr_left fun c _ => pyUpperChar_idem c

theorem dropWhile_pyUpper : ∀ s : List Char,
    (pyUpper s).dropWhile Char.isWhitespace = pyUpper (s.dropWhile Char.isWhitespace)
  | [] => rfl
  | c :: cs => by
    simp only [pyUpper, List.map_cons, List.dropWhile_cons, isWhitespace_pyUpperChar c]
    by_cases hw : c.isWhitespace
    · simp only [hw, if_true]
      exact dropWhile_pyUpper cs
    · simp only [hw]
      simp

theorem pyUpper_reverse (s : List Char) : (pyUpper s).reverse = pyUpper s.reverse := by
  simp [pyUpper]

/-- `str.upper` and `str.strip` commute. -/
theorem pyStrip_pyUpper (s : List Char) : pyStrip (pyUpper s) = pyUpper (pyStrip s) := by
  unfold pyStrip
  rw [dropWhile_pyUpper, pyUpper_reverse, dropWhile_pyUpper, pyUpper_reverse]

theorem pyStrip_eq_rdropWhile (s : List Char) :
    pyStrip s = List.rdropWhile Char.isWhitespace (s.dropWhile Char.isWhitespace) := rfl

/-- After a front strip, the tail strip leaves the front clean. -/
theorem dropWhile_rdropWhile_dropWhile (s : List Char) :
    (List.rdropWhile Char.isWhitespace (s.dropWhile Char.isWhitespace)).dropWhile
        Char.isWhitespace =
      List.rdropWhile Char.isWhitespace (s.dropWhile Char.isWhitespace) := by
  rw [List.dropWhile_eq_self_iff]
  intro h0
  have hpre := List.rdropWhile_prefix Char.isWhitespace (s.dropWhile Char.isWhitespace)
  have hlen : 0 < (s.dropWhile Char.isWhitespace).length :=
    Nat.lt_of_lt_of_le h0 hpre.length_le
  have hget := hpre.getElem h0
  rw [List.get_eq_getElem, hget]
  have hzero := List.dropWhile_get_zero_not Char.isWhitespace s hlen
  rw [List.get_eq_getElem] at hzero
  exact hzero

/-- `str.strip` is idempotent. -/
theorem pyStrip_idem (s : List Char) : pyStrip (pyStrip s) = pyStrip s := by
  rw [pyStrip_eq_rdropWhile s, pyStrip_eq_rdropWhile, dropWhile_rdropWhile_dropWhile,
    List.rdropWhile_idempotent]

/-- `t.upper().strip()` is invariant under re-normalization. -/
theorem normTicker_idem (t : List Char) : normTicker (normTicker t) = normTicker t := by
  show pyStrip (pyUpper (pyStrip (pyUpper t))) = pyStrip (pyUpper t)
  rw [← pyStrip_pyUpper (pyUpper t), pyUpper_idem, pyStrip_idem]

/-- C10: ticker normalization (`app.py:52`, `app.py:78`).  Both fetchers
normalize the ticker with `upper().strip()` before any provider call, so for
every provider behaviour they return identical results for `t` and for
`t.upper().strip()` — inputs such as `"aapl "` and `"AAPL"` are treated
identically throughout the pipeline. -/
theorem C10_ticker_normalization :
    ∀ (histProvider : List Char → Option (List Bar))
      (quoteProvider : List Char → List (String × ℚ)) (t : List Char),
      get_price_history histProvider t =
        get_price_history histProvider (pyStrip (pyUpper t)) ∧
      get_quote quoteProvider t = get_quote quoteProvider (pyStrip (pyUpper t)) := by
  intro hp qp t
  have h : normTicker (pyStrip (pyUpper t)) = normTicker t := normTicker_idem t
  exact ⟨congrArg hp h.symm, congrArg qp h.symm⟩

end Athena
